import Mathlib

/-!
Verification of the paper-trading portfolio engine
(`package/paper_trader.py`, class `PaperTrader`).

The Python source is shallowly embedded here:

* Python `float` amounts are modelled as exact rationals `ℚ` (the spec's
  claims are about exact accounting identities "at the chosen decimal
  precision", so the real-number semantics of the arithmetic is what is
  being checked, not IEEE rounding);
* the mutable `dict` `self.portfolio` is modelled as an association list
  with unique keys (`dictInsert` replaces in place, `dictErase` removes
  the key), matching Python `dict` assignment/`del` semantics;
* `try/except` blocks become `Option`-valued computations: an exception
  inside a `try` makes the guarded computation return `none`, and the
  `except` clause is the `none` branch of the caller;
* `float(x)` applied to a missing or unparseable field is modelled by the
  record carrying `Option ℚ` fields, `none` meaning the conversion raises;
* `sorted(trades, key=lambda x: x['timestamp'])` is Python's stable sort;
  it is modelled by a stable insertion sort by timestamp (a stable sort's
  output is uniquely determined by the key order and the input order, so
  any stable sort is an exact model);
* DynamoDB `put_item` may fail; trade-executing functions take a
  `persistOk : Bool` oracle telling whether that write succeeds.
-/

namespace PaperTrader

/-- An open paper-trading lot, one entry of `self.portfolio`
(source: `execute_trade`, lines 487-493, and `load_portfolio_state`,
lines 659-665). -/
structure Position where
  quantity : ℚ
  entry_price : ℚ
  entry_time : String
  trade_id : String
  market_type : String
deriving Repr, DecidableEq

/-- `self.portfolio`: a Python dict mapping symbol to `Position`. -/
abbrev PositionMap := List (String × Position)

/-- Dict lookup: `self.portfolio[symbol]` / `symbol in self.portfolio`. -/
def dictLookup (pf : PositionMap) (s : String) : Option Position :=
  match pf with
  | [] => none
  | kv :: rest => if kv.1 = s then some kv.2 else dictLookup rest s

/-- Dict assignment `self.portfolio[symbol] = pos`: replaces the value in
place when the key exists, otherwise appends (Python insertion order). -/
def dictInsert (s : String) (v : Position) : PositionMap → PositionMap
  | [] => [(s, v)]
  | kv :: rest => if kv.1 = s then (s, v) :: rest else kv :: dictInsert s v rest

/-- Dict deletion `del self.portfolio[symbol]`: the key is gone afterwards. -/
def dictErase (s : String) (pf : PositionMap) : PositionMap :=
  pf.filter (fun kv => kv.1 ≠ s)

/-- Mutable trader state: `self.wallet_balance` and `self.portfolio`. -/
structure TraderState where
  wallet_balance : ℚ
  portfolioMap : PositionMap
deriving Repr, DecidableEq

/-- `INITIAL_BALANCE` (default of env var `INITIAL_WALLET_BALANCE`): $50. -/
def INITIAL_BALANCE : ℚ := 50

/-- `self.max_position_size = 0.2`. -/
def max_position_size : ℚ := 1/5

/-- `self.stop_loss_pct = 0.05`. -/
def stop_loss_pct : ℚ := 1/20

/-- `self.take_profit_pct = 0.10`. -/
def take_profit_pct : ℚ := 1/10

/-- `self.min_confidence = 0.6`. -/
def min_confidence : ℚ := 3/5

/-! ## Ledger records and replay (`load_portfolio_state`, lines 630-678) -/

/-- A trade record as read back from the `TradingHistory` table.  The
numeric fields are `Option ℚ`: `none` models a missing or unparseable
field, on which `float(trade['quantity'])` / `float(trade['price'])`
raises (lines 655-656). -/
structure RawTrade where
  tradeId : String
  symbol : String
  action : String
  quantity : Option ℚ
  price : Option ℚ
  timestamp : String
  marketType : String
deriving Repr, DecidableEq

/-- One iteration of the replay loop (lines 652-670).  `none` models the
exception raised by `float(...)` on a corrupt numeric field; otherwise:
a BUY inserts (or overwrites) the position and debits `price * quantity`;
a SELL with the symbol open removes the position and credits
`price * quantity`; any other record is ignored. -/
def replayStep (acc : ℚ × PositionMap) (t : RawTrade) : Option (ℚ × PositionMap) :=
  match t.quantity, t.price with
  | some q, some p =>
    if t.action = "BUY" then
      some (acc.1 - p * q,
        dictInsert t.symbol ⟨q, p, t.timestamp, t.tradeId, t.marketType⟩ acc.2)
    else if t.action = "SELL" ∧ (dictLookup acc.2 t.symbol).isSome then
      some (acc.1 + p * q, dictErase t.symbol acc.2)
    else
      some acc
  | _, _ => none

/-- Timestamp comparison, decidable by structural recursion over the
character list (so that concrete replays evaluate inside proofs); the
relation itself is the library's lexicographic order on strings. -/
instance decidableStringLt (s t : String) : Decidable (s < t) :=
  decidable_of_iff (s.toList < t.toList) String.lt_iff_toList_lt.symm

/-- Insert a record into a list already sorted by timestamp, after all
records with a strictly smaller timestamp and before records with an
equal or larger one (this is the stable placement for a head-first
insertion sort). -/
def insertByTimestamp (t : RawTrade) : List RawTrade → List RawTrade
  | [] => [t]
  | u :: rest =>
    if u.timestamp < t.timestamp then u :: insertByTimestamp t rest
    else t :: u :: rest

/-- `sorted(trades, key=lambda x: x['timestamp'])`: stable sort by
timestamp ascending (ISO-8601 strings compare lexicographically, which is
chronological order). -/
def sortTrades : List RawTrade → List RawTrade
  | [] => []
  | t :: rest => insertByTimestamp t (sortTrades rest)

/-- `load_portfolio_state` (lines 630-678): replay the window's records in
timestamp order starting from `INITIAL_BALANCE` and an empty portfolio.
The whole loop runs inside one `try`; any exception (i.e. `none` from a
`replayStep`) is caught by the `except` clause, which resets to the
initial balance and an empty portfolio (lines 674-678).  The initial
balance is a parameter so different configurations can be stated. -/
def load_portfolio_state (init : ℚ) (trades : List RawTrade) : ℚ × PositionMap :=
  match (sortTrades trades).foldlM replayStep (init, []) with
  | some st => st
  | none => (init, [])

/-- The cash-balance formula as the spec's balance-conservation sentence
words it (`initialBalance − Σ(BUY.value) + Σ(SELL.value)`, the sums
ranging over all BUY respectively all SELL records of the window, with
`value = price × quantity`).  This definition follows the spec's words,
to be compared against `load_portfolio_state`. -/
def claimedCashAfterReplay (init : ℚ) (trades : List RawTrade) : ℚ :=
  init
    - ((trades.filter (fun t => t.action = "BUY")).map
        (fun t => t.price.getD 0 * t.quantity.getD 0)).sum
    + ((trades.filter (fun t => t.action = "SELL")).map
        (fun t => t.price.getD 0 * t.quantity.getD 0)).sum

/-- Sum of `price * quantity` over the BUY records of a window. -/
def buyValueSum : List RawTrade → ℚ
  | [] => 0
  | t :: rest =>
    (if t.action = "BUY" then t.price.getD 0 * t.quantity.getD 0 else 0)
      + buyValueSum rest

/-- Mark a symbol open (set insertion on the list of open symbols). -/
def symInsert (s : String) (l : List String) : List String :=
  if s ∈ l then l else l ++ [s]

/-- Sum of `price * quantity` over the SELL records that are *matched*,
i.e. whose symbol is open when the record is replayed, starting from the
set `openSyms` of open symbols.  This tracks only the open-symbol set,
not balances or positions, so equality with the replayed balance is a
genuine conservation statement. -/
def matchedSellSum (openSyms : List String) : List RawTrade → ℚ
  | [] => 0
  | t :: rest =>
    if t.action = "BUY" then matchedSellSum (symInsert t.symbol openSyms) rest
    else if t.action = "SELL" ∧ t.symbol ∈ openSyms then
      t.price.getD 0 * t.quantity.getD 0
        + matchedSellSum (openSyms.filter (fun x => x ≠ t.symbol)) rest
    else matchedSellSum openSyms rest

/-! ## Predictions, trade execution and the session loop
(`execute_trading_session` lines 100-165, `should_trade` lines 427-451,
`execute_trade` lines 453-550, `check_exit_conditions` lines 552-580,
`close_position` lines 582-628) -/

/-- The prediction record consumed by the trading loop (the fields
`execute_trade` and `should_trade` read). -/
structure Prediction where
  symbol : String
  market_type : String
  current_price : ℚ
  predicted_price : ℚ
  predicted_change_pct : ℚ
  confidence : ℚ
  signal : String
deriving Repr, DecidableEq

/-- A trade record as written to the `TradingHistory` table
(`tradeId`, `timestamp` and `status` carry no verification content and
are omitted; `uuid4()` and `utcnow()` are not modelled). -/
structure Trade where
  symbol : String
  marketType : String
  action : String
  quantity : ℚ
  price : ℚ
  value : ℚ
  walletBalanceBefore : ℚ
  walletBalanceAfter : ℚ
  entryPrice : Option ℚ
  pnl : Option ℚ
  pnlPercent : Option ℚ
  exitReason : Option String
  originalTradeId : Option String
deriving Repr, DecidableEq

/-- `should_trade` (lines 427-451): gate for Phase-2 entries. -/
def should_trade (st : TraderState) (p : Prediction) : Bool :=
  if p.confidence < min_confidence then false
  else if p.signal = "HOLD" then false
  else if p.signal = "SELL" then false
  else if st.wallet_balance * max_position_size < 1 then false
  else if (dictLookup st.portfolioMap p.symbol).isSome then false
  else true

/-- `execute_trade` (lines 453-550).  Returns the new state, the trade
record persisted to the ledger (if any) and the returned boolean.
`persistOk` tells whether the DynamoDB `put_item` succeeds; on a failed
write the exception is caught by the function's `except` clause, which
returns `False` — but the portfolio/wallet mutations made before the
write are NOT undone.  A BUY with `current_price = 0` raises
`ZeroDivisionError` before any mutation (line 467), caught likewise; a
SELL whose position has `entry_price = 0` raises at the P&L computation
(line 513) before any mutation. -/
def execute_trade (st : TraderState) (p : Prediction) (persistOk : Bool) :
    TraderState × Option Trade × Bool :=
  let base_position_size := st.wallet_balance * max_position_size
  let position_size := base_position_size * p.confidence
  if p.signal = "BUY" then
    if p.current_price = 0 then (st, none, false)
    else
      let q := position_size / p.current_price
      let w := st.wallet_balance - position_size
      let st' : TraderState :=
        ⟨w, dictInsert p.symbol ⟨q, p.current_price, "", "", p.market_type⟩ st.portfolioMap⟩
      let trade : Trade :=
        ⟨p.symbol, p.market_type, "BUY", q, p.current_price, position_size,
          st.wallet_balance, w, none, none, none, none, none⟩
      if persistOk then (st', some trade, true) else (st', none, false)
  else if p.signal = "SELL" then
    match dictLookup st.portfolioMap p.symbol with
    | none => (st, none, false)
    | some pos =>
      if pos.entry_price = 0 then (st, none, false)
      else
        let pnl := (p.current_price - pos.entry_price) * pos.quantity
        let pnl_pct := (p.current_price - pos.entry_price) / pos.entry_price * 100
        let w := st.wallet_balance + p.current_price * pos.quantity
        let st' : TraderState := ⟨w, dictErase p.symbol st.portfolioMap⟩
        let trade : Trade :=
          ⟨p.symbol, p.market_type, "SELL", pos.quantity, p.current_price,
            p.current_price * pos.quantity, st.wallet_balance, w,
            some pos.entry_price, some pnl, some pnl_pct, none, some pos.trade_id⟩
        if persistOk then (st', some trade, true) else (st', none, false)
  else (st, none, false)

/-- `close_position` (lines 582-628): close a lot at `current_price` with
an `exitReason`.  A missing symbol returns immediately (line 585); an
`entry_price` of zero raises at the P&L computation before any mutation,
caught by the function's own `except`; a failed `put_item` is caught
after the mutations, leaving them in place and persisting nothing. -/
def close_position (st : TraderState) (symbol : String) (current_price : ℚ)
    (reason : String) (persistOk : Bool) : TraderState × Option Trade :=
  match dictLookup st.portfolioMap symbol with
  | none => (st, none)
  | some pos =>
    if pos.entry_price = 0 then (st, none)
    else
      let pnl := (current_price - pos.entry_price) * pos.quantity
      let pnl_pct := (current_price - pos.entry_price) / pos.entry_price * 100
      let w := st.wallet_balance + current_price * pos.quantity
      let st' : TraderState := ⟨w, dictErase symbol st.portfolioMap⟩
      let trade : Trade :=
        ⟨symbol, pos.market_type, "SELL", pos.quantity, current_price,
          current_price * pos.quantity, st.wallet_balance, w,
          some pos.entry_price, some pnl, some pnl_pct, some reason, some pos.trade_id⟩
      if persistOk then (st', some trade) else (st', none)

/-- The scan half of `check_exit_conditions` (lines 554-576): walk the
open positions, skip any symbol absent from the live-price snapshot
(line 559), and collect `(symbol, current_price, reason)` for positions
past the stop-loss or take-profit threshold.  The P&L division (line 566)
is *not* inside a `try`: a quoted position with `entry_price = 0` raises
out of `check_exit_conditions`, modelled as `none`. -/
def scanExits (pf : PositionMap) (quotes : String → Option ℚ) :
    Option (List (String × ℚ × String)) :=
  match pf with
  | [] => some []
  | kv :: rest =>
    match quotes kv.1 with
    | none => scanExits rest quotes
    | some cp =>
      if kv.2.entry_price = 0 then none
      else
        let pnl_pct := (cp - kv.2.entry_price) / kv.2.entry_price
        if pnl_pct ≤ -stop_loss_pct then
          (scanExits rest quotes).map (fun xs => (kv.1, cp, "STOP_LOSS") :: xs)
        else if take_profit_pct ≤ pnl_pct then
          (scanExits rest quotes).map (fun xs => (kv.1, cp, "TAKE_PROFIT") :: xs)
        else scanExits rest quotes

/-- The close half of `check_exit_conditions` (lines 578-580): close each
collected symbol in order, gathering the persisted trade records. -/
def closeAll (st : TraderState) : List (String × ℚ × String) → TraderState × List Trade
  | [] => (st, [])
  | x :: rest =>
    let r := close_position st x.1 x.2.1 x.2.2 true
    let r' := closeAll r.1 rest
    (r'.1, r.2.toList ++ r'.2)

/-- `check_exit_conditions` (lines 552-580): scan, then close.  `none`
models the uncaught exception from the scan. -/
def check_exit_conditions (st : TraderState) (quotes : String → Option ℚ) :
    Option (TraderState × List Trade) :=
  (scanExits st.portfolioMap quotes).map (closeAll st)

/-- Phase 1 of `execute_trading_session` (lines 133-142): for every
prediction whose symbol is held, whose signal is SELL and whose
confidence clears `min_confidence`, execute the exit; count the trades
`execute_trade` reports as executed and collect the persisted records. -/
def phase1 (st : TraderState) : List Prediction → TraderState × List Trade × Nat
  | [] => (st, [], 0)
  | p :: rest =>
    if (dictLookup st.portfolioMap p.symbol).isSome ∧ p.signal = "SELL"
        ∧ min_confidence ≤ p.confidence then
      let r := execute_trade st p true
      let r' := phase1 r.1 rest
      (r'.1, r.2.1.toList ++ r'.2.1, (if r.2.2 then 1 else 0) + r'.2.2)
    else phase1 st rest

/-- Phase 2 of `execute_trading_session` (lines 147-152): for every
prediction passing `should_trade`, execute the entry. -/
def phase2 (st : TraderState) : List Prediction → TraderState × List Trade × Nat
  | [] => (st, [], 0)
  | p :: rest =>
    if should_trade st p then
      let r := execute_trade st p true
      let r' := phase2 r.1 rest
      (r'.1, r.2.1.toList ++ r'.2.1, (if r.2.2 then 1 else 0) + r'.2.2)
    else phase2 st rest

/-- The trading loop of `execute_trading_session` (lines 131-152), given
the generated predictions and the live-price snapshot: Phase-1
model-driven exits, then the stop-loss/take-profit sweep, then Phase-2
entries.  Returns the final state, the trade records persisted by each of
the three stages, and `trades_executed` (which counts only
`execute_trade` successes, as in the source).  `none` models the
exception escaping `check_exit_conditions`. -/
def runSessionCore (st : TraderState) (preds : List Prediction)
    (quotes : String → Option ℚ) :
    Option (TraderState × (List Trade × List Trade × List Trade) × Nat) :=
  let r1 := phase1 st preds
  match check_exit_conditions r1.1 quotes with
  | none => none
  | some r2 =>
    let r3 := phase2 r2.1 preds
    some (r3.1, (r1.2.1, r2.2, r3.2.1), r1.2.2 + r3.2.2)

/-- Number of SELL trade records for a given symbol in a list of
persisted records. -/
def sellCountFor (s : String) (tr : List Trade) : Nat :=
  (tr.filter (fun t => t.symbol = s ∧ t.action = "SELL")).length

/-- Sum of the `value` fields of a list of trade records. -/
def valueSum (tr : List Trade) : ℚ :=
  (tr.map Trade.value).sum

/-! ## Concrete fixtures used by counterexamples and witnesses -/

/-- A window holding only a SELL for `SOL` with no prior BUY (1 SOL at
$10). -/
def solOnlySell : RawTrade :=
  ⟨"t1", "SOL", "SELL", some 1, some 10, "2024-01-01T00:00:00", "crypto"⟩

/-- A well-formed BUY of 1 BTC at $10 on Jan 1. -/
def wBuy : RawTrade :=
  ⟨"a", "BTC", "BUY", some 1, some 10, "2024-01-01T00:00:00", "crypto"⟩

/-- A well-formed matching SELL of 1 BTC at $20 on Jan 2. -/
def wSell : RawTrade :=
  ⟨"b", "BTC", "SELL", some 1, some 20, "2024-01-02T00:00:00", "crypto"⟩

/-- First of two unmatched BUYs for `BTC` (1 BTC at $10, Jan 1). -/
def dbBuy1 : RawTrade :=
  ⟨"a", "BTC", "BUY", some 1, some 10, "2024-01-01T00:00:00", "crypto"⟩

/-- Second unmatched BUY for the same symbol (2 BTC at $20, Jan 2). -/
def dbBuy2 : RawTrade :=
  ⟨"b", "BTC", "BUY", some 2, some 20, "2024-01-02T00:00:00", "crypto"⟩

/-- A SELL record whose `quantity` field is missing/unparseable. -/
def corruptSell : RawTrade :=
  ⟨"c", "BTC", "SELL", none, some 20, "2024-01-02T00:00:00", "crypto"⟩

/-- BUY of 1 BTC at $10 whose timestamp collides with `colSell`'s;
its `tradeId` "a" precedes `colSell`'s "b". -/
def colBuy : RawTrade :=
  ⟨"a", "BTC", "BUY", some 1, some 10, "2024-01-01T00:00:00", "crypto"⟩

/-- SELL of 1 BTC at $20 with the same timestamp as `colBuy`. -/
def colSell : RawTrade :=
  ⟨"b", "BTC", "SELL", some 1, some 20, "2024-01-01T00:00:00", "crypto"⟩

/-- The spec's worked entry scenario: BUY signal on BTC at $45,000 with
confidence 0.8. -/
def predBTCBuy : Prediction :=
  ⟨"BTC", "crypto", 45000, 47000, 4, 4/5, "BUY"⟩

/-- A session start holding one ETH lot bought at $10. -/
def ethOpenState : TraderState :=
  ⟨50, [("ETH", ⟨1, 10, "", "t0", "crypto"⟩)]⟩

/-- A model-driven SELL prediction for the held ETH lot at $11 (so the
position is simultaneously at the +10% take-profit bound). -/
def ethSellPred : Prediction :=
  ⟨"ETH", "crypto", 11, 10, -5, 7/10, "SELL"⟩

/-! ## Helper lemmas: dictionary operations -/

theorem dictErase_cons (s : String) (kv : String × Position) (rest : PositionMap) :
    dictErase s (kv :: rest) =
      if kv.1 = s then dictErase s rest else kv :: dictErase s rest := by
  by_cases h : kv.1 = s <;> simp [dictErase, List.filter_cons, h]

theorem dictLookup_erase_self (pf : PositionMap) (s : String) :
    dictLookup (dictErase s pf) s = none := by
  induction pf with
  | nil => rfl
  | cons kv rest ih =>
    rw [dictErase_cons]
    by_cases h : kv.1 = s
    · rw [if_pos h]
      exact ih
    · rw [if_neg h, dictLookup, if_neg h]
      exact ih

theorem dictLookup_erase_ne (pf : PositionMap) (s x : String) (h : x ≠ s) :
    dictLookup (dictErase s pf) x = dictLookup pf x := by
  induction pf with
  | nil => rfl
  | cons kv rest ih =>
    rw [dictErase_cons]
    by_cases hk : kv.1 = s
    · rw [if_pos hk, ih, dictLookup, if_neg (by rw [hk]; exact fun hx => h hx.symm)]
    · rw [if_neg hk, dictLookup, dictLookup]
      by_cases hx : kv.1 = x
      · rw [if_pos hx, if_pos hx]
      · rw [if_neg hx, if_neg hx]
        exact ih

theorem dictLookup_insert_self (pf : PositionMap) (s : String) (v : Position) :
    dictLookup (dictInsert s v pf) s = some v := by
  induction pf with
  | nil => simp [dictInsert, dictLookup]
  | cons kv rest ih =>
    by_cases h : kv.1 = s
    · simp [dictInsert, h, dictLookup]
    · simp only [dictInsert, h, ite_false]
      rw [dictLookup, if_neg h]
      exact ih

theorem dictLookup_insert_ne (pf : PositionMap) (s x : String) (v : Position)
    (h : x ≠ s) : dictLookup (dictInsert s v pf) x = dictLookup pf x := by
  induction pf with
  | nil =>
    have hs : ¬ s = x := fun hx => h hx.symm
    simp [dictInsert, dictLookup, hs]
  | cons kv rest ih =>
    by_cases hk : kv.1 = s
    · simp only [dictInsert, hk, ite_true]
      rw [dictLookup, if_neg (fun hx => h hx.symm), dictLookup, hk,
        if_neg (fun hx => h hx.symm)]
    · simp only [dictInsert, hk, ite_false]
      rw [dictLookup, dictLookup]
      by_cases hx : kv.1 = x
      · rw [if_pos hx, if_pos hx]
      · rw [if_neg hx, if_neg hx]
        exact ih

theorem mem_dictInsert (pf : PositionMap) (s : String) (v : Position) (kv : String × Position)
    (h : kv ∈ dictInsert s v pf) : kv = (s, v) ∨ kv ∈ pf := by
  induction pf with
  | nil => simpa [dictInsert] using h
  | cons kv0 rest ih =>
    by_cases hk : kv0.1 = s
    · simp only [dictInsert, hk, ite_true, List.mem_cons] at h
      rcases h with h | h
      · exact Or.inl h
      · exact Or.inr (List.mem_cons_of_mem _ h)
    · simp only [dictInsert, hk, ite_false, List.mem_cons] at h
      rcases h with h | h
      · exact Or.inr (h ▸ List.mem_cons_self _ _)
      · rcases ih h with h' | h'
        · exact Or.inl h'
        · exact Or.inr (List.mem_cons_of_mem _ h')

theorem mem_dictErase (pf : PositionMap) (s : String) (kv : String × Position)
    (h : kv ∈ dictErase s pf) : kv ∈ pf :=
  List.mem_of_mem_filter h

theorem dictLookup_eq_some_mem (pf : PositionMap) (s : String) (pos : Position)
    (h : dictLookup pf s = some pos) : (s, pos) ∈ pf := by
  induction pf with
  | nil => simp [dictLookup] at h
  | cons kv rest ih =>
    rw [dictLookup] at h
    by_cases hk : kv.1 = s
    · rw [if_pos hk] at h
      obtain ⟨k, v⟩ := kv
      simp only [Option.some.injEq] at h
      cases hk
      cases h
      exact List.mem_cons_self _ _
    · rw [if_neg hk] at h
      exact List.mem_cons_of_mem _ (ih h)

theorem dictLookup_none_not_mem (pf : PositionMap) (s : String)
    (h : dictLookup pf s = none) (pos : Position) : (s, pos) ∉ pf := by
  induction pf with
  | nil => simp
  | cons kv rest ih =>
    rw [dictLookup] at h
    by_cases hk : kv.1 = s
    · rw [if_pos hk] at h
      exact absurd h (by simp)
    · rw [if_neg hk] at h
      intro hm
      rcases List.mem_cons.mp hm with hm | hm
      · exact hk (by rw [← hm])
      · exact ih h hm

/-! ## Helper lemmas: stable sort by timestamp -/

theorem insertByTimestamp_perm (t : RawTrade) (l : List RawTrade) :
    (insertByTimestamp t l).Perm (t :: l) := by
  induction l with
  | nil => rfl
  | cons u rest ih =>
    rw [insertByTimestamp]
    by_cases h : u.timestamp < t.timestamp
    · rw [if_pos h]
      exact (ih.cons u).trans (List.Perm.swap t u rest)
    · rw [if_neg h]

theorem sortTrades_perm (l : List RawTrade) : (sortTrades l).Perm l := by
  induction l with
  | nil => rfl
  | cons t rest ih =>
    exact (insertByTimestamp_perm t (sortTrades rest)).trans (ih.cons t)

theorem mem_sortTrades (l : List RawTrade) (x : RawTrade) :
    x ∈ sortTrades l ↔ x ∈ l :=
  (sortTrades_perm l).mem_iff

theorem insertByTimestamp_sorted (t : RawTrade) (l : List RawTrade)
    (h : l.Pairwise (fun a b => a.timestamp ≤ b.timestamp)) :
    (insertByTimestamp t l).Pairwise (fun a b => a.timestamp ≤ b.timestamp) := by
  induction l with
  | nil => simp [insertByTimestamp]
  | cons u rest ih =>
    rw [List.pairwise_cons] at h
    rw [insertByTimestamp]
    by_cases hc : u.timestamp < t.timestamp
    · rw [if_pos hc]
      rw [List.pairwise_cons]
      refine ⟨fun b hb => ?_, ih h.2⟩
      rcases List.mem_cons.mp ((insertByTimestamp_perm t rest).mem_iff.mp hb) with hb | hb
      · rw [hb]
        exact le_of_lt hc
      · exact h.1 b hb
    · rw [if_neg hc]
      rw [List.pairwise_cons]
      refine ⟨fun b hb => ?_, List.pairwise_cons.mpr h⟩
      rcases List.mem_cons.mp hb with hb | hb
      · rw [hb]
        exact le_of_not_lt hc
      · exact le_trans (le_of_not_lt hc) (h.1 b hb)

theorem sortTrades_sorted (l : List RawTrade) :
    (sortTrades l).Pairwise (fun a b => a.timestamp ≤ b.timestamp) := by
  induction l with
  | nil => simp [sortTrades]
  | cons t rest ih => exact insertByTimestamp_sorted t _ ih

/-- Two sorted lists that are permutations of each other and whose
timestamps are pairwise distinct are equal (sorting by a key with no
collisions determines the output uniquely, whatever the input order). -/
theorem sorted_perm_eq : ∀ (l1 l2 : List RawTrade), l1.Perm l2 →
    l1.Pairwise (fun a b => a.timestamp ≤ b.timestamp) →
    l2.Pairwise (fun a b => a.timestamp ≤ b.timestamp) →
    l1.Pairwise (fun a b => a.timestamp ≠ b.timestamp) →
    l1 = l2
  | [], l2, hp, _, _, _ => hp.nil_eq
  | a :: t1, [], hp, _, _, _ => absurd hp.symm (by simp)
  | a :: t1, b :: t2, hp, h1, h2, hne => by
    rw [List.pairwise_cons] at h1 h2 hne
    have hab : a = b := by
      by_contra hab
      have hbmem : b ∈ a :: t1 := hp.symm.subset (List.mem_cons_self b t2)
      have hamem : a ∈ b :: t2 := hp.subset (List.mem_cons_self a t1)
      have hb1 : b ∈ t1 := by
        rcases List.mem_cons.mp hbmem with h | h
        · exact absurd h.symm hab
        · exact h
      have hle1 : a.timestamp ≤ b.timestamp := h1.1 b hb1
      have hne1 : a.timestamp ≠ b.timestamp := hne.1 b hb1
      have ha2 : a ∈ t2 := by
        rcases List.mem_cons.mp hamem with h | h
        · exact absurd h hab
        · exact h
      have hle2 : b.timestamp ≤ a.timestamp := h2.1 a ha2
      exact hne1 (le_antisymm hle1 hle2)
    subst hab
    have htl : t1.Perm t2 := hp.cons_inv
    rw [sorted_perm_eq t1 t2 htl h1.2 h2.2 hne.2]

/-! ## Helper lemmas: replay and balance accounting -/

theorem symInsert_mem (s x : String) (l : List String) :
    x ∈ symInsert s l ↔ x ∈ l ∨ x = s := by
  by_cases h : s ∈ l
  · simp only [symInsert, if_pos h]
    constructor
    · exact Or.inl
    · rintro (hx | hx)
      · exact hx
      · exact hx ▸ h
  · simp [symInsert, if_neg h]

theorem buyValueSum_eq_sum_map (L : List RawTrade) :
    buyValueSum L = (L.map (fun t =>
      if t.action = "BUY" then t.price.getD 0 * t.quantity.getD 0 else 0)).sum := by
  induction L with
  | nil => rfl
  | cons t rest ih => simp [buyValueSum, ih]

theorem buyValueSum_perm (L1 L2 : List RawTrade) (h : L1.Perm L2) :
    buyValueSum L1 = buyValueSum L2 := by
  rw [buyValueSum_eq_sum_map, buyValueSum_eq_sum_map]
  exact (h.map _).sum_eq

/-- A record whose numeric fields both parse never makes the replay loop
raise. -/
theorem replayStep_isSome (acc : ℚ × PositionMap) (t : RawTrade)
    (hq : t.quantity.isSome) (hp : t.price.isSome) :
    (replayStep acc t).isSome := by
  obtain ⟨q, hq⟩ := Option.isSome_iff_exists.mp hq
  obtain ⟨p, hp⟩ := Option.isSome_iff_exists.mp hp
  simp only [replayStep, hq, hp]
  by_cases hb : t.action = "BUY"
  · rw [if_pos hb]
    rfl
  · rw [if_neg hb]
    by_cases hs : t.action = "SELL" ∧ (dictLookup acc.2 t.symbol).isSome = true
    · rw [if_pos hs]
      rfl
    · rw [if_neg hs]
      rfl

/-- Core conservation lemma for the replay loop: starting from balance
`bal` and a portfolio whose open symbols are exactly `o`, folding a fully
parseable record list yields balance
`bal − Σ(BUY values) + Σ(matched SELL values)`. -/
theorem replay_fold_balance : ∀ (L : List RawTrade) (bal : ℚ) (pf : PositionMap)
    (o : List String),
    (∀ x, (dictLookup pf x).isSome ↔ x ∈ o) →
    (∀ t ∈ L, t.quantity.isSome ∧ t.price.isSome) →
    ∃ pf', L.foldlM replayStep (bal, pf) =
      some (bal - buyValueSum L + matchedSellSum o L, pf')
  | [], bal, pf, o, _, _ => by
    refine ⟨pf, ?_⟩
    simp [List.foldlM, buyValueSum, matchedSellSum]
  | t :: rest, bal, pf, o, hR, hparse => by
    obtain ⟨hq0, hp0⟩ := hparse t (List.mem_cons_self t rest)
    obtain ⟨q, hq⟩ := Option.isSome_iff_exists.mp hq0
    obtain ⟨p, hp⟩ := Option.isSome_iff_exists.mp hp0
    have hrest : ∀ u ∈ rest, u.quantity.isSome ∧ u.price.isSome :=
      fun u hu => hparse u (List.mem_cons_of_mem t hu)
    rw [List.foldlM_cons]
    by_cases hb : t.action = "BUY"
    · -- BUY: debit and insert (overwriting any open lot)
      have hstep : replayStep (bal, pf) t =
          some (bal - p * q,
            dictInsert t.symbol ⟨q, p, t.timestamp, t.tradeId, t.marketType⟩ pf) := by
        simp only [replayStep, hq, hp]
        rw [if_pos hb]
      rw [hstep]
      have hR' : ∀ x, (dictLookup
          (dictInsert t.symbol ⟨q, p, t.timestamp, t.tradeId, t.marketType⟩ pf) x).isSome
          ↔ x ∈ symInsert t.symbol o := by
        intro x
        by_cases hx : x = t.symbol
        · subst hx
          rw [dictLookup_insert_self]
          simp [symInsert_mem]
        · rw [dictLookup_insert_ne pf t.symbol x _ hx, symInsert_mem]
          rw [hR x]
          exact ⟨Or.inl, fun h => h.resolve_right hx⟩
      obtain ⟨pf', hfold⟩ := replay_fold_balance rest (bal - p * q) _
        (symInsert t.symbol o) hR' hrest
      refine ⟨pf', ?_⟩
      simp only [Option.bind_eq_bind, Option.some_bind]
      rw [hfold]
      refine congrArg some (Prod.ext ?_ rfl)
      rw [buyValueSum, matchedSellSum, if_pos hb, if_pos hb, hp, hq]
      simp only [Option.getD_some]
      ring
    · by_cases hs : t.action = "SELL" ∧ t.symbol ∈ o
      · -- matched SELL: credit and remove
        have hlk : (dictLookup pf t.symbol).isSome := (hR t.symbol).mpr hs.2
        have hstep : replayStep (bal, pf) t =
            some (bal + p * q, dictErase t.symbol pf) := by
          simp only [replayStep, hq, hp]
          rw [if_neg hb, if_pos ⟨hs.1, hlk⟩]
        rw [hstep]
        have hR' : ∀ x, (dictLookup (dictErase t.symbol pf) x).isSome
            ↔ x ∈ o.filter (fun x => x ≠ t.symbol) := by
          intro x
          by_cases hx : x = t.symbol
          · subst hx
            rw [dictLookup_erase_self]
            simp
          · rw [dictLookup_erase_ne pf t.symbol x hx, hR x]
            simp [List.mem_filter, hx]
        obtain ⟨pf', hfold⟩ := replay_fold_balance rest (bal + p * q) _
          (o.filter (fun x => x ≠ t.symbol)) hR' hrest
        refine ⟨pf', ?_⟩
        simp only [Option.bind_eq_bind, Option.some_bind]
        rw [hfold]
        refine congrArg some (Prod.ext ?_ rfl)
        rw [buyValueSum, matchedSellSum, if_neg hb, if_neg hb, if_pos hs, hp, hq]
        simp only [Option.getD_some]
        ring
      · -- anything else: record ignored
        have hcond : ¬ (t.action = "SELL" ∧ (dictLookup pf t.symbol).isSome = true) := by
          rintro ⟨hsell, hk⟩
          exact hs ⟨hsell, (hR t.symbol).mp hk⟩
        have hstep : replayStep (bal, pf) t = some (bal, pf) := by
          simp only [replayStep, hq, hp]
          rw [if_neg hb, if_neg hcond]
        rw [hstep]
        obtain ⟨pf', hfold⟩ := replay_fold_balance rest bal pf o hR hrest
        refine ⟨pf', ?_⟩
        simp only [Option.bind_eq_bind, Option.some_bind]
        rw [hfold]
        refine congrArg some (Prod.ext ?_ rfl)
        rw [buyValueSum, matchedSellSum, if_neg hb, if_neg hb, if_neg hs]
        ring

/-- A window containing a record with a missing/unparseable numeric field
makes the whole replay fold raise (return `none`), wherever the record
sits. -/
theorem replay_fold_bad : ∀ (L : List RawTrade) (acc : ℚ × PositionMap),
    (∃ t ∈ L, t.quantity = none ∨ t.price = none) →
    L.foldlM replayStep acc = none
  | [], _, h => by simp at h
  | t0 :: rest, acc, h => by
    rw [List.foldlM_cons]
    by_cases hbad : t0.quantity = none ∨ t0.price = none
    · have hstep : replayStep acc t0 = none := by
        rcases hbad with hbad | hbad
        · simp [replayStep, hbad]
        · cases hq : t0.quantity with
          | none => simp [replayStep, hq]
          | some q => simp [replayStep, hq, hbad]
      rw [hstep]
      rfl
    · push_neg at hbad
      have hq : t0.quantity.isSome := Option.ne_none_iff_isSome.mp hbad.1
      have hp : t0.price.isSome := Option.ne_none_iff_isSome.mp hbad.2
      obtain ⟨acc', hacc⟩ := Option.isSome_iff_exists.mp (replayStep_isSome acc t0 hq hp)
      rw [hacc]
      simp only [Option.bind_eq_bind, Option.some_bind]
      obtain ⟨t, ht, htbad⟩ := h
      have htrest : t ∈ rest := by
        rcases List.mem_cons.mp ht with ht | ht
        · subst ht
          rcases htbad with hx | hx
          · exact absurd hx hbad.1
          · exact absurd hx hbad.2
        · exact ht
      exact replay_fold_bad rest acc' ⟨t, htrest, htbad⟩

/-- Outcomes of `execute_trade` under a SELL signal: either nothing
happens (no open lot, or a zero entry price making the P&L computation
raise), or the lot is closed at the prediction's price. -/
theorem execute_trade_sell_cases (st : TraderState) (p : Prediction)
    (hs : p.signal = "SELL") :
    execute_trade st p true = (st, none, false) ∨
    (∃ pos, dictLookup st.portfolioMap p.symbol = some pos ∧ pos.entry_price ≠ 0 ∧
      execute_trade st p true =
        (⟨st.wallet_balance + p.current_price * pos.quantity,
           dictErase p.symbol st.portfolioMap⟩,
         some ⟨p.symbol, p.market_type, "SELL", pos.quantity, p.current_price,
           p.current_price * pos.quantity, st.wallet_balance,
           st.wallet_balance + p.current_price * pos.quantity,
           some pos.entry_price,
           some ((p.current_price - pos.entry_price) * pos.quantity),
           some ((p.current_price - pos.entry_price) / pos.entry_price * 100),
           none, some pos.trade_id⟩, true)) := by
  have hb : ¬ p.signal = "BUY" := by
    rw [hs]
    decide
  rcases hlk : dictLookup st.portfolioMap p.symbol with - | pos
  · left
    simp only [execute_trade, if_neg hb, if_pos hs, hlk]
  · by_cases hz : pos.entry_price = 0
    · left
      simp only [execute_trade, if_neg hb, if_pos hs, hlk, if_pos hz]
    · right
      refine ⟨pos, rfl, hz, ?_⟩
      simp only [execute_trade, if_neg hb, if_pos hs, hlk, if_neg hz]
      rfl

/-- Running `execute_trade` on a SELL signal against an open lot with a
nonzero entry price closes the lot. -/
theorem execute_trade_sell_run (st : TraderState) (p : Prediction) (pos : Position)
    (hs : p.signal = "SELL")
    (hlk : dictLookup st.portfolioMap p.symbol = some pos)
    (hz : pos.entry_price ≠ 0) :
    execute_trade st p true =
      (⟨st.wallet_balance + p.current_price * pos.quantity,
         dictErase p.symbol st.portfolioMap⟩,
       some ⟨p.symbol, p.market_type, "SELL", pos.quantity, p.current_price,
         p.current_price * pos.quantity, st.wallet_balance,
         st.wallet_balance + p.current_price * pos.quantity,
         some pos.entry_price,
         some ((p.current_price - pos.entry_price) * pos.quantity),
         some ((p.current_price - pos.entry_price) / pos.entry_price * 100),
         none, some pos.trade_id⟩, true) := by
  have hb : ¬ p.signal = "BUY" := by
    rw [hs]
    decide
  simp only [execute_trade, if_neg hb, if_pos hs, hlk, if_neg hz]
  rfl

/-- Outcomes of `close_position`: either a no-op (symbol absent or zero
entry price) or the lot is closed at the given price. -/
theorem close_position_cases (st : TraderState) (sym : String) (cp : ℚ) (r : String) :
    close_position st sym cp r true = (st, none) ∨
    (∃ pos, dictLookup st.portfolioMap sym = some pos ∧
      close_position st sym cp r true =
        (⟨st.wallet_balance + cp * pos.quantity, dictErase sym st.portfolioMap⟩,
         some ⟨sym, pos.market_type, "SELL", pos.quantity, cp, cp * pos.quantity,
           st.wallet_balance, st.wallet_balance + cp * pos.quantity,
           some pos.entry_price, some ((cp - pos.entry_price) * pos.quantity),
           some ((cp - pos.entry_price) / pos.entry_price * 100), some r,
           some pos.trade_id⟩)) := by
  rcases hlk : dictLookup st.portfolioMap sym with - | pos
  · left
    simp only [close_position, hlk]
  · by_cases hz : pos.entry_price = 0
    · left
      simp only [close_position, hlk, if_pos hz]
    · right
      refine ⟨pos, rfl, ?_⟩
      simp only [close_position, hlk, if_neg hz]
      rfl

theorem sellCountFor_cons (s : String) (t : Trade) (tr : List Trade) :
    sellCountFor s (t :: tr) =
      (if t.symbol = s ∧ t.action = "SELL" then 1 else 0) + sellCountFor s tr := by
  rw [sellCountFor, sellCountFor, List.filter_cons]
  by_cases h : t.symbol = s ∧ t.action = "SELL"
  · simp [h]
    omega
  · simp [h]

theorem sellCountFor_append (s : String) (a b : List Trade) :
    sellCountFor s (a ++ b) = sellCountFor s a + sellCountFor s b := by
  simp [sellCountFor, List.filter_append]

theorem sellCountFor_eq_zero (s : String) (tr : List Trade)
    (h : ∀ t ∈ tr, ¬ (t.symbol = s ∧ t.action = "SELL")) :
    sellCountFor s tr = 0 := by
  rw [sellCountFor, List.length_eq_zero, List.filter_eq_nil]
  intro t ht
  simpa using h t ht

/-- Phase 1 never creates a position: its final portfolio entries come
from the starting portfolio. -/
theorem phase1_sub : ∀ (preds : List Prediction) (st : TraderState)
    (kv : String × Position), kv ∈ (phase1 st preds).1.portfolioMap →
    kv ∈ st.portfolioMap
  | [], _, _, h => h
  | p :: rest, st, kv, h => by
    rw [phase1] at h
    by_cases hg : (dictLookup st.portfolioMap p.symbol).isSome ∧ p.signal = "SELL"
        ∧ min_confidence ≤ p.confidence
    · rw [if_pos hg] at h
      rcases execute_trade_sell_cases st p hg.2.1 with hcase | ⟨pos, hlk, hz, hcase⟩
      · rw [hcase] at h
        exact phase1_sub rest st kv h
      · rw [hcase] at h
        exact mem_dictErase _ _ _ (phase1_sub rest _ kv h)
    · rw [if_neg hg] at h
      exact phase1_sub rest st kv h

/-- If a symbol is not open, phase 1 keeps it closed and records no SELL
for it. -/
theorem phase1_absent (s : String) : ∀ (preds : List Prediction) (st : TraderState),
    dictLookup st.portfolioMap s = none →
    dictLookup (phase1 st preds).1.portfolioMap s = none ∧
    sellCountFor s (phase1 st preds).2.1 = 0
  | [], st, h => ⟨h, rfl⟩
  | p :: rest, st, h => by
    rw [phase1]
    by_cases hg : (dictLookup st.portfolioMap p.symbol).isSome ∧ p.signal = "SELL"
        ∧ min_confidence ≤ p.confidence
    · rw [if_pos hg]
      have hne : p.symbol ≠ s := by
        intro he
        rw [he, h] at hg
        exact absurd hg.1 (by decide)
      rcases execute_trade_sell_cases st p hg.2.1 with hcase | ⟨pos, hlk, hz, hcase⟩
      · rw [hcase]
        simp only [Option.toList_none, List.nil_append]
        exact phase1_absent s rest st h
      · rw [hcase]
        have h' : dictLookup (dictErase p.symbol st.portfolioMap) s = none := by
          rw [dictLookup_erase_ne _ _ _ (fun he => hne he.symm)]
          exact h
        obtain ⟨ih1, ih2⟩ := phase1_absent s rest
          ⟨st.wallet_balance + p.current_price * pos.quantity,
            dictErase p.symbol st.portfolioMap⟩ h'
        refine ⟨ih1, ?_⟩
        simp only [Option.toList_some, List.singleton_append]
        rw [sellCountFor_cons, ih2, if_neg (fun hx => hne hx.1)]
    · rw [if_neg hg]
      exact phase1_absent s rest st h

/-- If a symbol is open with a nonzero entry price and some prediction in
the list is an eligible model-driven SELL for it, phase 1 closes it
exactly once: exactly one SELL trade for the symbol is recorded and the
symbol is no longer open afterwards. -/
theorem phase1_eligible (s : String) : ∀ (preds : List Prediction)
    (st : TraderState) (pos : Position),
    dictLookup st.portfolioMap s = some pos → pos.entry_price ≠ 0 →
    (∃ p ∈ preds, p.symbol = s ∧ p.signal = "SELL" ∧ min_confidence ≤ p.confidence) →
    dictLookup (phase1 st preds).1.portfolioMap s = none ∧
    sellCountFor s (phase1 st preds).2.1 = 1
  | [], st, pos, _, _, hex => by
    obtain ⟨p, hp, -⟩ := hex
    exact absurd hp (by simp)
  | p :: rest, st, pos, hopen, hz, hex => by
    rw [phase1]
    by_cases hg : (dictLookup st.portfolioMap p.symbol).isSome ∧ p.signal = "SELL"
        ∧ min_confidence ≤ p.confidence
    · rw [if_pos hg]
      by_cases hps : p.symbol = s
      · -- the head prediction closes s
        have hlk : dictLookup st.portfolioMap p.symbol = some pos := by
          rw [hps]
          exact hopen
        rw [execute_trade_sell_run st p pos hg.2.1 hlk hz]
        have h' : dictLookup (dictErase p.symbol st.portfolioMap) s = none := by
          rw [hps]
          exact dictLookup_erase_self _ _
        obtain ⟨ih1, ih2⟩ := phase1_absent s rest
          ⟨st.wallet_balance + p.current_price * pos.quantity,
            dictErase p.symbol st.portfolioMap⟩ h'
        refine ⟨ih1, ?_⟩
        simp only [Option.toList_some, List.singleton_append]
        rw [sellCountFor_cons, ih2, if_pos ⟨hps, rfl⟩]
      · -- the head trades another symbol; s keeps its lot
        have hex' : ∃ p' ∈ rest, p'.symbol = s ∧ p'.signal = "SELL"
            ∧ min_confidence ≤ p'.confidence := by
          obtain ⟨p', hp', h1, h2, h3⟩ := hex
          rcases List.mem_cons.mp hp' with he | hmem
          · exact absurd (he ▸ h1) hps
          · exact ⟨p', hmem, h1, h2, h3⟩
        rcases execute_trade_sell_cases st p hg.2.1 with hcase | ⟨pos', hlk, hz', hcase⟩
        · rw [hcase]
          simp only [Option.toList_none, List.nil_append]
          exact phase1_eligible s rest st pos hopen hz hex'
        · rw [hcase]
          have hopen' : dictLookup (dictErase p.symbol st.portfolioMap) s = some pos := by
            rw [dictLookup_erase_ne _ _ _ (fun he => hps he.symm)]
            exact hopen
          obtain ⟨ih1, ih2⟩ := phase1_eligible s rest
            ⟨st.wallet_balance + p.current_price * pos'.quantity,
              dictErase p.symbol st.portfolioMap⟩ pos hopen' hz hex'
          refine ⟨ih1, ?_⟩
          simp only [Option.toList_some, List.singleton_append]
          rw [sellCountFor_cons, ih2, if_neg (fun hx => hps hx.1)]
    · rw [if_neg hg]
      have hex' : ∃ p' ∈ rest, p'.symbol = s ∧ p'.signal = "SELL"
          ∧ min_confidence ≤ p'.confidence := by
        obtain ⟨p', hp', h1, h2, h3⟩ := hex
        rcases List.mem_cons.mp hp' with he | hmem
        · subst he
          rw [h1, hopen] at hg
          exact absurd ⟨rfl, h2, h3⟩ hg
        · exact ⟨p', hmem, h1, h2, h3⟩
      exact phase1_eligible s rest st pos hopen hz hex'

theorem valueSum_nil : valueSum [] = 0 := rfl

theorem valueSum_cons (t : Trade) (tr : List Trade) :
    valueSum (t :: tr) = t.value + valueSum tr := by
  simp [valueSum]

/-- The exit scan succeeds whenever every open position has a nonzero
entry price. -/
theorem scanExits_isSome : ∀ (pf : PositionMap) (quotes : String → Option ℚ),
    (∀ kv ∈ pf, kv.2.entry_price ≠ 0) → ∃ xs, scanExits pf quotes = some xs
  | [], _, _ => ⟨[], rfl⟩
  | kv :: rest, quotes, h => by
    obtain ⟨xs, hxs⟩ := scanExits_isSome rest quotes
      (fun u hu => h u (List.mem_cons_of_mem _ hu))
    rcases hq : quotes kv.1 with - | cp
    · simp only [scanExits, hq]
      exact ⟨xs, hxs⟩
    · simp only [scanExits, hq]
      rw [if_neg (h kv (List.mem_cons_self _ _))]
      by_cases h1 : (cp - kv.2.entry_price) / kv.2.entry_price ≤ -stop_loss_pct
      · rw [if_pos h1, hxs]
        exact ⟨_, rfl⟩
      · rw [if_neg h1]
        by_cases h2 : take_profit_pct ≤ (cp - kv.2.entry_price) / kv.2.entry_price
        · rw [if_pos h2, hxs]
          exact ⟨_, rfl⟩
        · rw [if_neg h2]
          exact ⟨xs, hxs⟩

/-- Every instruction collected by the exit scan carries the live quote
of an open position's symbol. -/
theorem scanExits_sound : ∀ (pf : PositionMap) (quotes : String → Option ℚ)
    (xs : List (String × ℚ × String)), scanExits pf quotes = some xs →
    ∀ x ∈ xs, quotes x.1 = some x.2.1 ∧ ∃ pos, (x.1, pos) ∈ pf
  | [], _, xs, h, x, hx => by
    rw [scanExits] at h
    cases h
    simp at hx
  | kv :: rest, quotes, xs, h, x, hx => by
    rcases hq : quotes kv.1 with - | cp
    · simp only [scanExits, hq] at h
      obtain ⟨h1, pos, h2⟩ := scanExits_sound rest quotes xs h x hx
      exact ⟨h1, pos, List.mem_cons_of_mem _ h2⟩
    · simp only [scanExits, hq] at h
      by_cases hz : kv.2.entry_price = 0
      · rw [if_pos hz] at h
        cases h
      · rw [if_neg hz] at h
        by_cases h1 : (cp - kv.2.entry_price) / kv.2.entry_price ≤ -stop_loss_pct
        · rw [if_pos h1] at h
          rcases hscan : scanExits rest quotes with - | ys
          · rw [hscan] at h
            cases h
          · rw [hscan] at h
            obtain rfl : (kv.1, cp, "STOP_LOSS") :: ys = xs := by
              simpa using h
            rcases List.mem_cons.mp hx with rfl | hx'
            · exact ⟨hq, kv.2, by simp⟩
            · obtain ⟨ha, pos, hb⟩ := scanExits_sound rest quotes ys hscan x hx'
              exact ⟨ha, pos, List.mem_cons_of_mem _ hb⟩
        · rw [if_neg h1] at h
          by_cases h2 : take_profit_pct ≤ (cp - kv.2.entry_price) / kv.2.entry_price
          · rw [if_pos h2] at h
            rcases hscan : scanExits rest quotes with - | ys
            · rw [hscan] at h
              cases h
            · rw [hscan] at h
              obtain rfl : (kv.1, cp, "TAKE_PROFIT") :: ys = xs := by
                simpa using h
              rcases List.mem_cons.mp hx with rfl | hx'
              · exact ⟨hq, kv.2, by simp⟩
              · obtain ⟨ha, pos, hb⟩ := scanExits_sound rest quotes ys hscan x hx'
                exact ⟨ha, pos, List.mem_cons_of_mem _ hb⟩
          · rw [if_neg h2] at h
            obtain ⟨ha, pos, hb⟩ := scanExits_sound rest quotes xs h x hx
            exact ⟨ha, pos, List.mem_cons_of_mem _ hb⟩

/-- Closing the collected lots: the wallet grows by exactly the summed
trade values, every recorded trade is a SELL for one of the collected
symbols, and positions of symbols not in the list are untouched. -/
theorem closeAll_spec : ∀ (xs : List (String × ℚ × String)) (st : TraderState),
    (closeAll st xs).1.wallet_balance = st.wallet_balance + valueSum (closeAll st xs).2 ∧
    (∀ t ∈ (closeAll st xs).2, t.action = "SELL" ∧ t.symbol ∈ xs.map (fun x => x.1)) ∧
    (∀ s, s ∉ xs.map (fun x => x.1) →
      dictLookup (closeAll st xs).1.portfolioMap s = dictLookup st.portfolioMap s)
  | [], st => by
    refine ⟨?_, ?_, ?_⟩
    · rw [closeAll, valueSum_nil]
      ring
    · intro t ht
      simp [closeAll] at ht
    · intro s hs
      rfl
  | x :: rest, st => by
    rw [closeAll]
    rcases close_position_cases st x.1 x.2.1 x.2.2 with hc | ⟨pos, hlk, hc⟩
    · rw [hc]
      obtain ⟨ih1, ih2, ih3⟩ := closeAll_spec rest st
      refine ⟨?_, ?_, ?_⟩
      · simpa using ih1
      · intro t ht
        simp only [Option.toList_none, List.nil_append] at ht
        obtain ⟨ha, hb⟩ := ih2 t ht
        exact ⟨ha, List.mem_cons_of_mem _ hb⟩
      · intro s hs
        have hs' : s ∉ rest.map (fun x => x.1) := by
          intro hmem
          exact hs (List.mem_cons_of_mem _ hmem)
        simpa using ih3 s hs'
    · rw [hc]
      obtain ⟨ih1, ih2, ih3⟩ := closeAll_spec rest
        ⟨st.wallet_balance + x.2.1 * pos.quantity, dictErase x.1 st.portfolioMap⟩
      refine ⟨?_, ?_, ?_⟩
      · simp only [Option.toList_some, List.singleton_append]
        rw [valueSum_cons]
        simp only [] at ih1 ⊢
        rw [ih1]
        ring
      · intro t ht
        simp only [Option.toList_some, List.singleton_append, List.mem_cons] at ht
        rcases ht with rfl | ht'
        · exact ⟨rfl, by simp⟩
        · obtain ⟨ha, hb⟩ := ih2 t ht'
          exact ⟨ha, List.mem_cons_of_mem _ hb⟩
      · intro s hs
        have hne : s ≠ x.1 := by
          intro he
          exact hs (by simp [he])
        have hs' : s ∉ rest.map (fun x => x.1) := by
          intro hmem
          exact hs (List.mem_cons_of_mem _ hmem)
        rw [ih3 s hs']
        simp only []
        rw [dictLookup_erase_ne _ _ _ hne]

/-- What passing the `should_trade` gate implies. -/
theorem should_trade_props (st : TraderState) (p : Prediction)
    (h : should_trade st p = true) :
    min_confidence ≤ p.confidence ∧ ¬ p.signal = "HOLD" ∧ ¬ p.signal = "SELL" ∧
    1 ≤ st.wallet_balance * max_position_size ∧
    dictLookup st.portfolioMap p.symbol = none := by
  rw [should_trade] at h
  by_cases h1 : p.confidence < min_confidence
  · rw [if_pos h1] at h
    cases h
  · rw [if_neg h1] at h
    by_cases h2 : p.signal = "HOLD"
    · rw [if_pos h2] at h
      cases h
    · rw [if_neg h2] at h
      by_cases h3 : p.signal = "SELL"
      · rw [if_pos h3] at h
        cases h
      · rw [if_neg h3] at h
        by_cases h4 : st.wallet_balance * max_position_size < 1
        · rw [if_pos h4] at h
          cases h
        · rw [if_neg h4] at h
          by_cases h5 : (dictLookup st.portfolioMap p.symbol).isSome = true
          · rw [if_pos h5] at h
            cases h
          · rw [if_neg h5] at h
            exact ⟨not_lt.mp h1, h2, h3, not_lt.mp h4,
              Option.not_isSome_iff_eq_none.mp h5⟩

/-- Any trade record emitted by `execute_trade` is a BUY unless the
prediction's signal was SELL. -/
theorem execute_trade_emit_action (st : TraderState) (p : Prediction) (t : Trade)
    (h : (execute_trade st p true).2.1 = some t) :
    t.action = "BUY" ∨ p.signal = "SELL" := by
  by_cases hb : p.signal = "BUY"
  · by_cases hz : p.current_price = 0
    · rw [execute_trade, if_pos hb, if_pos hz] at h
      cases h
    · rw [execute_trade, if_pos hb, if_neg hz] at h
      simp only [ite_true] at h
      left
      rw [← Option.some.inj h]
  · by_cases hs : p.signal = "SELL"
    · exact Or.inr hs
    · rw [execute_trade, if_neg hb, if_neg hs] at h
      cases h

/-- Every trade recorded by phase 2 is a BUY. -/
theorem phase2_trades_buy : ∀ (preds : List Prediction) (st : TraderState),
    ∀ t ∈ (phase2 st preds).2.1, t.action = "BUY"
  | [], _, t, ht => by
    simp [phase2] at ht
  | p :: rest, st, t, ht => by
    rw [phase2] at ht
    by_cases hg : should_trade st p = true
    · rw [if_pos hg] at ht
      rcases List.mem_append.mp ht with hth | htt
      · have hsome : (execute_trade st p true).2.1 = some t := by
          rcases hopt : (execute_trade st p true).2.1 with - | t'
          · rw [hopt] at hth
            cases hth
          · rw [hopt] at hth
            simp only [Option.toList_some, List.mem_singleton] at hth
            rw [hth]
        rcases execute_trade_emit_action st p t hsome with ha | hs
        · exact ha
        · exact absurd hs (should_trade_props st p hg).2.2.1
      · exact phase2_trades_buy rest _ t htt
    · rw [if_neg hg] at ht
      exact phase2_trades_buy rest st t ht

/-- Running `execute_trade` on a BUY signal with a nonzero price opens
the sized position. -/
theorem execute_trade_buy_run (st : TraderState) (p : Prediction)
    (hb : p.signal = "BUY") (hz : ¬ p.current_price = 0) :
    execute_trade st p true =
      (⟨st.wallet_balance - st.wallet_balance * max_position_size * p.confidence,
        dictInsert p.symbol
          ⟨st.wallet_balance * max_position_size * p.confidence / p.current_price,
            p.current_price, "", "", p.market_type⟩ st.portfolioMap⟩,
       some ⟨p.symbol, p.market_type, "BUY",
         st.wallet_balance * max_position_size * p.confidence / p.current_price,
         p.current_price, st.wallet_balance * max_position_size * p.confidence,
         st.wallet_balance,
         st.wallet_balance - st.wallet_balance * max_position_size * p.confidence,
         none, none, none, none, none⟩, true) := by
  rw [execute_trade, if_pos hb, if_neg hz]
  rfl

/-- One `execute_trade` call preserves wallet non-negativity and
non-negative lot quantities, and stamps the post-trade wallet into the
record's `walletBalanceAfter`. -/
theorem execute_trade_inv (st : TraderState) (p : Prediction)
    (h0 : 0 ≤ st.wallet_balance)
    (h1 : ∀ kv ∈ st.portfolioMap, 0 ≤ kv.2.quantity)
    (hc0 : 0 ≤ p.confidence) (hc1 : p.confidence ≤ 1)
    (hp : 0 ≤ p.current_price) :
    0 ≤ (execute_trade st p true).1.wallet_balance ∧
    (∀ kv ∈ (execute_trade st p true).1.portfolioMap, 0 ≤ kv.2.quantity) ∧
    (∀ t, (execute_trade st p true).2.1 = some t →
      t.walletBalanceAfter = (execute_trade st p true).1.wallet_balance) := by
  by_cases hb : p.signal = "BUY"
  · by_cases hz : p.current_price = 0
    · rw [execute_trade, if_pos hb, if_pos hz]
      refine ⟨h0, h1, ?_⟩
      intro t ht
      cases ht
    · rw [execute_trade_buy_run st p hb hz]
      refine ⟨?_, ?_, ?_⟩
      · show 0 ≤ st.wallet_balance - st.wallet_balance * max_position_size * p.confidence
        rw [max_position_size]
        nlinarith [mul_nonneg h0 hc0, mul_nonneg h0 (sub_nonneg.mpr hc1)]
      · intro kv hkv
        rcases mem_dictInsert _ _ _ kv hkv with rfl | hmem
        · show 0 ≤ st.wallet_balance * max_position_size * p.confidence / p.current_price
          apply div_nonneg _ hp
          rw [max_position_size]
          positivity
        · exact h1 kv hmem
      · intro t ht
        cases Option.some.inj ht
        rfl
  · by_cases hs : p.signal = "SELL"
    · rcases execute_trade_sell_cases st p hs with hcase | ⟨pos, hlk, hz', hcase⟩
      · rw [hcase]
        refine ⟨h0, h1, ?_⟩
        intro t ht
        cases ht
      · rw [hcase]
        have hq : 0 ≤ pos.quantity :=
          h1 (p.symbol, pos) (dictLookup_eq_some_mem _ _ _ hlk)
        refine ⟨?_, ?_, ?_⟩
        · exact add_nonneg h0 (mul_nonneg hp hq)
        · intro kv hkv
          exact h1 kv (mem_dictErase _ _ _ hkv)
        · intro t ht
          cases Option.some.inj ht
          rfl
    · rw [execute_trade, if_neg hb, if_neg hs]
      refine ⟨h0, h1, ?_⟩
      intro t ht
      cases ht



/-- Phase 1 preserves the non-negativity invariant; every trade it
records carries a non-negative post-trade wallet snapshot. -/
theorem phase1_inv : ∀ (preds : List Prediction) (st : TraderState),
    (∀ p ∈ preds, 0 ≤ p.confidence ∧ p.confidence ≤ 1 ∧ 0 ≤ p.current_price) →
    0 ≤ st.wallet_balance →
    (∀ kv ∈ st.portfolioMap, 0 ≤ kv.2.quantity) →
    0 ≤ (phase1 st preds).1.wallet_balance ∧
    (∀ kv ∈ (phase1 st preds).1.portfolioMap, 0 ≤ kv.2.quantity) ∧
    (∀ t ∈ (phase1 st preds).2.1, 0 ≤ t.walletBalanceAfter)
  | [], st, _, h0, h1 => by
    refine ⟨h0, h1, ?_⟩
    intro t ht
    simp [phase1] at ht
  | p :: rest, st, hpr, h0, h1 => by
    obtain ⟨hc0, hc1, hp⟩ := hpr p (List.mem_cons_self _ _)
    have hprrest : ∀ p' ∈ rest, 0 ≤ p'.confidence ∧ p'.confidence ≤ 1
        ∧ 0 ≤ p'.current_price := fun p' h => hpr p' (List.mem_cons_of_mem _ h)
    rw [phase1]
    by_cases hg : (dictLookup st.portfolioMap p.symbol).isSome ∧ p.signal = "SELL"
        ∧ min_confidence ≤ p.confidence
    · rw [if_pos hg]
      obtain ⟨e0, e1, e2⟩ := execute_trade_inv st p h0 h1 hc0 hc1 hp
      obtain ⟨i0, i1, i2⟩ := phase1_inv rest (execute_trade st p true).1 hprrest e0 e1
      refine ⟨i0, i1, ?_⟩
      intro t ht
      rcases List.mem_append.mp ht with hth | htt
      · rcases hopt : (execute_trade st p true).2.1 with - | t0
        · rw [hopt] at hth
          cases hth
        · rw [hopt] at hth
          simp only [Option.toList_some, List.mem_singleton] at hth
          rw [hth, e2 t0 hopt]
          exact e0
      · exact i2 t htt
    · rw [if_neg hg]
      exact phase1_inv rest st hprrest h0 h1

/-- Phase 2 preserves the non-negativity invariant; every trade it
records carries a non-negative post-trade wallet snapshot. -/
theorem phase2_inv : ∀ (preds : List Prediction) (st : TraderState),
    (∀ p ∈ preds, 0 ≤ p.confidence ∧ p.confidence ≤ 1 ∧ 0 ≤ p.current_price) →
    0 ≤ st.wallet_balance →
    (∀ kv ∈ st.portfolioMap, 0 ≤ kv.2.quantity) →
    0 ≤ (phase2 st preds).1.wallet_balance ∧
    (∀ kv ∈ (phase2 st preds).1.portfolioMap, 0 ≤ kv.2.quantity) ∧
    (∀ t ∈ (phase2 st preds).2.1, 0 ≤ t.walletBalanceAfter)
  | [], st, _, h0, h1 => by
    refine ⟨h0, h1, ?_⟩
    intro t ht
    simp [phase2] at ht
  | p :: rest, st, hpr, h0, h1 => by
    obtain ⟨hc0, hc1, hp⟩ := hpr p (List.mem_cons_self _ _)
    have hprrest : ∀ p' ∈ rest, 0 ≤ p'.confidence ∧ p'.confidence ≤ 1
        ∧ 0 ≤ p'.current_price := fun p' h => hpr p' (List.mem_cons_of_mem _ h)
    rw [phase2]
    by_cases hg : should_trade st p = true
    · rw [if_pos hg]
      obtain ⟨e0, e1, e2⟩ := execute_trade_inv st p h0 h1 hc0 hc1 hp
      obtain ⟨i0, i1, i2⟩ := phase2_inv rest (execute_trade st p true).1 hprrest e0 e1
      refine ⟨i0, i1, ?_⟩
      intro t ht
      rcases List.mem_append.mp ht with hth | htt
      · rcases hopt : (execute_trade st p true).2.1 with - | t0
        · rw [hopt] at hth
          cases hth
        · rw [hopt] at hth
          simp only [Option.toList_some, List.mem_singleton] at hth
          rw [hth, e2 t0 hopt]
          exact e0
      · exact i2 t htt
    · rw [if_neg hg]
      exact phase2_inv rest st hprrest h0 h1

/-- The risk sweep's closes preserve the non-negativity invariant when
every collected exit price is non-negative. -/
theorem closeAll_inv : ∀ (xs : List (String × ℚ × String)) (st : TraderState),
    (∀ x ∈ xs, 0 ≤ x.2.1) →
    0 ≤ st.wallet_balance →
    (∀ kv ∈ st.portfolioMap, 0 ≤ kv.2.quantity) →
    0 ≤ (closeAll st xs).1.wallet_balance ∧
    (∀ kv ∈ (closeAll st xs).1.portfolioMap, 0 ≤ kv.2.quantity) ∧
    (∀ t ∈ (closeAll st xs).2, 0 ≤ t.walletBalanceAfter)
  | [], st, _, h0, h1 => by
    refine ⟨h0, h1, ?_⟩
    intro t ht
    simp [closeAll] at ht
  | x :: rest, st, hx, h0, h1 => by
    have hxrest : ∀ x' ∈ rest, 0 ≤ x'.2.1 :=
      fun x' h => hx x' (List.mem_cons_of_mem _ h)
    rw [closeAll]
    rcases close_position_cases st x.1 x.2.1 x.2.2 with hc | ⟨pos, hlk, hc⟩
    · rw [hc]
      obtain ⟨i0, i1, i2⟩ := closeAll_inv rest st hxrest h0 h1
      refine ⟨i0, i1, ?_⟩
      intro t ht
      simp only [Option.toList_none, List.nil_append] at ht
      exact i2 t ht
    · rw [hc]
      have hq : 0 ≤ pos.quantity :=
        h1 (x.1, pos) (dictLookup_eq_some_mem _ _ _ hlk)
      have h0' : 0 ≤ st.wallet_balance + x.2.1 * pos.quantity :=
        add_nonneg h0 (mul_nonneg (hx x (List.mem_cons_self _ _)) hq)
      have h1' : ∀ kv ∈ dictErase x.1 st.portfolioMap, 0 ≤ kv.2.quantity :=
        fun kv hkv => h1 kv (mem_dictErase _ _ _ hkv)
      obtain ⟨i0, i1, i2⟩ := closeAll_inv rest
        ⟨st.wallet_balance + x.2.1 * pos.quantity, dictErase x.1 st.portfolioMap⟩
        hxrest h0' h1'
      refine ⟨i0, i1, ?_⟩
      intro t ht
      simp only [Option.toList_some, List.singleton_append, List.mem_cons] at ht
      rcases ht with rfl | ht'
      · exact h0'
      · exact i2 t ht'

/-! ## Claim theorems -/

/-- Claim C1, counterexample.  The spec formula
`cash = initial − Σ(BUY.value) + Σ(SELL.value)` sums over ALL SELL
records, but `load_portfolio_state` credits a SELL only when the symbol
is currently open: replaying a window holding a single unmatched SELL
(1 SOL at $10) leaves the cash at the initial $50, while the claimed
formula gives $60. -/
theorem c1_balance_conservation_counterexample :
    (load_portfolio_state 50 [solOnlySell]).1 = 50 ∧
    claimedCashAfterReplay 50 [solOnlySell] = 60 ∧
    (load_portfolio_state 50 [solOnlySell]).1 ≠
      claimedCashAfterReplay 50 [solOnlySell] := by
  refine ⟨?_, ?_, ?_⟩ <;>
    norm_num +decide [load_portfolio_state, sortTrades, insertByTimestamp,
      replayStep, dictLookup, claimedCashAfterReplay, solOnlySell]

/-- Claim C1, amended: for every fully parseable ledger window, the
reconstructed cash balance equals the configured initial balance minus
the sum of `price × quantity` over all BUY records plus the sum of
`price × quantity` over the *matched* SELL records — those whose symbol
is open at the moment they are replayed; unmatched SELLs contribute
nothing. -/
theorem c1_balance_conservation_amended (init : ℚ) (trades : List RawTrade)
    (h : ∀ t ∈ trades, t.quantity.isSome ∧ t.price.isSome) :
    (load_portfolio_state init trades).1 =
      init - buyValueSum trades + matchedSellSum [] (sortTrades trades) := by
  have hs : ∀ t ∈ sortTrades trades, t.quantity.isSome ∧ t.price.isSome :=
    fun t ht => h t ((mem_sortTrades trades t).mp ht)
  have hR : ∀ x, (dictLookup ([] : PositionMap) x).isSome ↔ x ∈ ([] : List String) := by
    intro x
    simp [dictLookup]
  obtain ⟨pf', hfold⟩ := replay_fold_balance (sortTrades trades) init [] [] hR hs
  have hload : load_portfolio_state init trades =
      (init - buyValueSum (sortTrades trades) + matchedSellSum [] (sortTrades trades), pf') := by
    rw [load_portfolio_state, hfold]
  rw [hload]
  rw [buyValueSum_perm (sortTrades trades) trades (sortTrades_perm trades)]

/-- Witness for `c1_balance_conservation_amended`: the matched BUY/SELL
window `[wBuy, wSell]` parses fully, and its replayed balance satisfies
the amended conservation identity. -/
theorem c1_balance_conservation_amended_witness :
    (∀ t ∈ [wBuy, wSell], t.quantity.isSome ∧ t.price.isSome) ∧
    (load_portfolio_state 50 [wBuy, wSell]).1 =
      50 - buyValueSum [wBuy, wSell] + matchedSellSum [] (sortTrades [wBuy, wSell]) :=
  ⟨by decide, c1_balance_conservation_amended 50 [wBuy, wSell] (by decide)⟩

/-- Claim C2, counterexample.  Replaying a window with two unmatched BUYs
for `BTC` (1 BTC at $10, then 2 BTC at $20) does not fail at all: the
fold succeeds, the second BUY silently overwrites the first position, and
cash is debited for both ($50 − $10 − $40 = $0).  No `InvariantViolation`
exists anywhere in the source. -/
theorem c2_no_double_open_counterexample :
    ((sortTrades [dbBuy1, dbBuy2]).foldlM replayStep (50, [])).isSome = true ∧
    load_portfolio_state 50 [dbBuy1, dbBuy2] =
      (0, [("BTC", ⟨2, 20, "2024-01-02T00:00:00", "b", "crypto"⟩)]) := by
  refine ⟨?_, ?_⟩ <;>
    norm_num +decide [load_portfolio_state, sortTrades, insertByTimestamp,
      replayStep, dictLookup, dictInsert, dbBuy1, dbBuy2]

/-- Claim C2, amended: replaying a ledger window containing a BUY for a
symbol that is already open does not raise anything — the replay
completes, the later BUY silently overwrites the open position (the
final position carries the second BUY's price, quantity and ids), and
cash is debited for both BUYs. -/
theorem c2_no_double_open_amended (init q1 p1 q2 p2 : ℚ)
    (s ts1 ts2 id1 id2 mt1 mt2 : String) (h : ¬ ts2 < ts1) :
    load_portfolio_state init
        [⟨id1, s, "BUY", some q1, some p1, ts1, mt1⟩,
         ⟨id2, s, "BUY", some q2, some p2, ts2, mt2⟩] =
      (init - p1 * q1 - p2 * q2, [(s, ⟨q2, p2, ts2, id2, mt2⟩)]) := by
  have hsort : sortTrades
      [(⟨id1, s, "BUY", some q1, some p1, ts1, mt1⟩ : RawTrade),
       ⟨id2, s, "BUY", some q2, some p2, ts2, mt2⟩] =
      [⟨id1, s, "BUY", some q1, some p1, ts1, mt1⟩,
       ⟨id2, s, "BUY", some q2, some p2, ts2, mt2⟩] := by
    simp only [sortTrades, insertByTimestamp]
    rw [if_neg h]
  rw [load_portfolio_state, hsort]
  simp [List.foldlM_cons, replayStep, dictInsert]

/-- Witness for `c2_no_double_open_amended` at the concrete double-BUY
window of the counterexample. -/
theorem c2_no_double_open_amended_witness :
    ¬ ("2024-01-02T00:00:00" : String) < "2024-01-01T00:00:00" ∧
    load_portfolio_state 50
        [⟨"a", "BTC", "BUY", some 1, some 10, "2024-01-01T00:00:00", "crypto"⟩,
         ⟨"b", "BTC", "BUY", some 2, some 20, "2024-01-02T00:00:00", "crypto"⟩] =
      (50 - 10 * 1 - 20 * 2,
        [("BTC", ⟨2, 20, "2024-01-02T00:00:00", "b", "crypto"⟩)]) :=
  ⟨by decide, c2_no_double_open_amended 50 1 10 2 20 "BTC"
    "2024-01-01T00:00:00" "2024-01-02T00:00:00" "a" "b" "crypto" "crypto" (by decide)⟩

/-- Claim C3, counterexample.  A window holding only a SELL for `SOL`
with no prior BUY replays without any failure: the fold succeeds and
returns the portfolio untouched (initial balance, no positions) — no
`InvariantViolation` is raised. -/
theorem c3_unmatched_close_counterexample :
    ((sortTrades [solOnlySell]).foldlM replayStep (50, [])).isSome = true ∧
    load_portfolio_state 50 [solOnlySell] = (50, []) := by
  refine ⟨?_, ?_⟩ <;>
    norm_num +decide [load_portfolio_state, sortTrades, insertByTimestamp,
      replayStep, dictLookup, solOnlySell]

/-- Claim C3, amended: a SELL record whose symbol has no open position is
silently skipped by the replay loop — the step succeeds and leaves both
the cash balance and the portfolio exactly unchanged. -/
theorem c3_unmatched_close_amended (bal : ℚ) (pf : PositionMap) (t : RawTrade)
    (q p : ℚ) (hsell : t.action = "SELL") (hq : t.quantity = some q)
    (hp : t.price = some p) (habsent : dictLookup pf t.symbol = none) :
    replayStep (bal, pf) t = some (bal, pf) := by
  have hb : ¬ t.action = "BUY" := by
    rw [hsell]
    decide
  have hcond : ¬ (t.action = "SELL" ∧ (dictLookup pf t.symbol).isSome = true) := by
    rintro ⟨-, hk⟩
    rw [habsent] at hk
    exact absurd hk (by decide)
  simp only [replayStep, hq, hp]
  rw [if_neg hb, if_neg hcond]

/-- Witness for `c3_unmatched_close_amended` at the lone-SELL window. -/
theorem c3_unmatched_close_amended_witness :
    solOnlySell.action = "SELL" ∧ dictLookup [] solOnlySell.symbol = none ∧
    replayStep (50, []) solOnlySell = some (50, []) :=
  ⟨by decide, by decide,
    c3_unmatched_close_amended 50 [] solOnlySell 1 10 (by decide) (by decide)
      (by decide) (by decide)⟩

/-- Claim C4, counterexample.  Execute the spec's BTC entry with the
ledger write failing (`persistOk = false`): `execute_trade` reports the
trade as not executed, yet the wallet has been debited to $42 and the
BTC position sits in the portfolio — the in-memory mutation is not
rolled back. -/
theorem c4_trade_persist_counterexample :
    (execute_trade ⟨50, []⟩ predBTCBuy false).2.2 = false ∧
    (execute_trade ⟨50, []⟩ predBTCBuy false).1.wallet_balance = 42 ∧
    dictLookup (execute_trade ⟨50, []⟩ predBTCBuy false).1.portfolioMap "BTC" =
      some ⟨1/5625, 45000, "", "", "crypto"⟩ ∧
    (execute_trade ⟨50, []⟩ predBTCBuy false).1 ≠ (⟨50, []⟩ : TraderState) := by
  refine ⟨?_, ?_, ?_, ?_⟩ <;>
    norm_num +decide [execute_trade, max_position_size, dictInsert, dictLookup,
      predBTCBuy]

/-- Claim C4, amended: a failed persist is caught (nothing is recorded,
the call reports failure, and the session goes on to other symbols), but
the in-memory mutation is NOT rolled back — for both `execute_trade` and
`close_position` the resulting portfolio/wallet state is exactly the
state a successful persist would have produced. -/
theorem c4_trade_persist_amended (st : TraderState) (p : Prediction)
    (sym : String) (cp : ℚ) (r : String) :
    execute_trade st p false = ((execute_trade st p true).1, none, false) ∧
    close_position st sym cp r false = ((close_position st sym cp r true).1, none) := by
  constructor
  · rw [execute_trade, execute_trade]
    by_cases hb : p.signal = "BUY"
    · simp only [if_pos hb]
      by_cases hz : p.current_price = 0
      · simp only [if_pos hz]
      · simp only [if_neg hz]
        rfl
    · simp only [if_neg hb]
      by_cases hs : p.signal = "SELL"
      · simp only [if_pos hs]
        rcases dictLookup st.portfolioMap p.symbol with - | pos
        · rfl
        · by_cases hz : pos.entry_price = 0
          · simp only [if_pos hz]
          · simp only [if_neg hz]
            rfl
      · simp only [if_neg hs]
  · rw [close_position, close_position]
    rcases dictLookup st.portfolioMap sym with - | pos
    · rfl
    · by_cases hz : pos.entry_price = 0
      · simp only [if_pos hz]
      · simp only [if_neg hz]
        rfl

/-- Claim C8: entry sizing.  Whenever a BUY prediction clears the
confidence gate, the symbol is not held, the wallet supports the $1
minimum (`walletBalance × maxPositionSize ≥ 1`) and the price is
positive, `should_trade` admits the entry and `execute_trade` opens a
position of value `walletBalance × maxPositionSize × confidence`, with
quantity that value divided by the current price, debiting the wallet by
exactly that value. -/
theorem c8_entry_sizing (st : TraderState) (p : Prediction)
    (hbuy : p.signal = "BUY") (hconf : min_confidence ≤ p.confidence)
    (hbal : 1 ≤ st.wallet_balance * max_position_size)
    (hfree : dictLookup st.portfolioMap p.symbol = none)
    (hprice : 0 < p.current_price) :
    should_trade st p = true ∧
    execute_trade st p true =
      (⟨st.wallet_balance - st.wallet_balance * max_position_size * p.confidence,
        dictInsert p.symbol
          ⟨st.wallet_balance * max_position_size * p.confidence / p.current_price,
            p.current_price, "", "", p.market_type⟩ st.portfolioMap⟩,
       some ⟨p.symbol, p.market_type, "BUY",
         st.wallet_balance * max_position_size * p.confidence / p.current_price,
         p.current_price, st.wallet_balance * max_position_size * p.confidence,
         st.wallet_balance,
         st.wallet_balance - st.wallet_balance * max_position_size * p.confidence,
         none, none, none, none, none⟩, true) := by
  have hz : ¬ p.current_price = 0 := ne_of_gt hprice
  have hhold : ¬ p.signal = "HOLD" := by
    rw [hbuy]
    decide
  have hsellne : ¬ p.signal = "SELL" := by
    rw [hbuy]
    decide
  constructor
  · rw [should_trade, if_neg (not_lt.mpr hconf), if_neg hhold, if_neg hsellne,
      if_neg (not_lt.mpr hbal), hfree]
    rfl
  · rw [execute_trade]
    rw [if_pos hbuy, if_neg hz]
    rfl

/-- Witness for `c8_entry_sizing`, which is exactly the spec's worked
scenario: wallet $50, no open positions, BTC BUY at $45,000 with
confidence 0.8 and maxPositionSize 0.2 ⇒ position value $8, quantity
8/45000 = 1/5625 BTC, resulting wallet $42. -/
theorem c8_entry_sizing_witness :
    should_trade ⟨50, []⟩ predBTCBuy = true ∧
    execute_trade ⟨50, []⟩ predBTCBuy true =
      (⟨42, [("BTC", ⟨1/5625, 45000, "", "", "crypto"⟩)]⟩,
       some ⟨"BTC", "crypto", "BUY", 1/5625, 45000, 8, 50, 42,
         none, none, none, none, none⟩, true) := by
  have h := c8_entry_sizing ⟨50, []⟩ predBTCBuy rfl
    (by norm_num [min_confidence, predBTCBuy])
    (by norm_num [max_position_size])
    rfl
    (by norm_num [predBTCBuy])
  refine ⟨h.1, ?_⟩
  rw [h.2]
  norm_num [predBTCBuy, max_position_size, dictInsert]

/-- Claim C5, counterexample.  In the window `[wBuy, corruptSell]` the
second record's `quantity` is unparseable.  The claim says only that
record is skipped and the rest is still replayed (which would leave $40
and the BTC position open); the code instead catches the exception at
function level and resets the whole portfolio to the initial state. -/
theorem c5_corrupt_record_counterexample :
    load_portfolio_state 50 [wBuy, corruptSell] = (50, []) ∧
    load_portfolio_state 50 [wBuy, corruptSell] ≠
      (50 - 10 * 1, [("BTC", ⟨1, 10, "2024-01-01T00:00:00", "a", "crypto"⟩)]) := by
  refine ⟨?_, ?_⟩ <;>
    norm_num +decide [load_portfolio_state, sortTrades, insertByTimestamp,
      replayStep, dictLookup, dictInsert, wBuy, corruptSell]

/-- Claim C5, amended: a trade record with a missing or unparseable
numeric field aborts the *entire* replay — the exception is caught by
`load_portfolio_state`'s `except` clause and the portfolio falls back to
the initial balance with no open positions; none of the other records in
the window take effect. -/
theorem c5_corrupt_record_amended (init : ℚ) (trades : List RawTrade)
    (h : ∃ t ∈ trades, t.quantity = none ∨ t.price = none) :
    load_portfolio_state init trades = (init, []) := by
  obtain ⟨t, ht, hbad⟩ := h
  have hnone : (sortTrades trades).foldlM replayStep (init, []) = none :=
    replay_fold_bad _ _ ⟨t, (mem_sortTrades trades t).mpr ht, hbad⟩
  rw [load_portfolio_state, hnone]

/-- Witness for `c5_corrupt_record_amended` at the concrete corrupt
window. -/
theorem c5_corrupt_record_amended_witness :
    (∃ t ∈ [wBuy, corruptSell], t.quantity = none ∨ t.price = none) ∧
    load_portfolio_state 50 [wBuy, corruptSell] = (50, []) :=
  ⟨by decide, c5_corrupt_record_amended 50 [wBuy, corruptSell] (by decide)⟩

/-- Claim C6, counterexample.  `colBuy` and `colSell` share one timestamp
and carry tradeIds "a" < "b", so the claimed tradeId tie-break would
replay BUY-then-SELL for either input order, giving identical portfolios.
The code's sort is stable on *input order* instead: presenting the same
two records in the two orders yields $60/no position versus $40/BTC open. -/
theorem c6_replay_determinism_counterexample :
    load_portfolio_state 50 [colBuy, colSell] = (60, []) ∧
    load_portfolio_state 50 [colSell, colBuy] =
      (40, [("BTC", ⟨1, 10, "2024-01-01T00:00:00", "a", "crypto"⟩)]) ∧
    load_portfolio_state 50 [colBuy, colSell] ≠
      load_portfolio_state 50 [colSell, colBuy] := by
  refine ⟨?_, ?_, ?_⟩ <;>
    norm_num +decide [load_portfolio_state, sortTrades, insertByTimestamp,
      replayStep, dictLookup, dictInsert, dictErase, colBuy, colSell]

/-- Claim C6, amended: replay sorts by timestamp ascending with a stable
sort whose tie-break is the *input order*, not `tradeId`; replaying a
fixed input sequence is deterministic, and whenever the window's
timestamps are pairwise distinct the result is moreover independent of
the input order. -/
theorem c6_replay_determinism_amended (init : ℚ) (L1 L2 : List RawTrade)
    (hperm : L1.Perm L2)
    (hne : L1.Pairwise (fun a b => a.timestamp ≠ b.timestamp)) :
    load_portfolio_state init L1 = load_portfolio_state init L2 := by
  have hsort : sortTrades L1 = sortTrades L2 :=
    sorted_perm_eq _ _
      ((sortTrades_perm L1).trans (hperm.trans (sortTrades_perm L2).symm))
      (sortTrades_sorted L1) (sortTrades_sorted L2)
      (((sortTrades_perm L1).pairwise_iff (fun h => Ne.symm h)).mpr hne)
  rw [load_portfolio_state, load_portfolio_state, hsort]

/-- Witness for `c6_replay_determinism_amended`: the distinct-timestamp
window `[wBuy, wSell]` replayed in either input order gives the same
portfolio. -/
theorem c6_replay_determinism_amended_witness :
    ([wBuy, wSell] : List RawTrade).Perm [wSell, wBuy] ∧
    ([wBuy, wSell] : List RawTrade).Pairwise
      (fun a b => a.timestamp ≠ b.timestamp) ∧
    load_portfolio_state 50 [wBuy, wSell] = load_portfolio_state 50 [wSell, wBuy] :=
  ⟨by decide, by decide,
    c6_replay_determinism_amended 50 [wBuy, wSell] [wSell, wBuy] (by decide) (by decide)⟩

/-- Claim C7: phase ordering of exits.  For a symbol held at session
start whose position has a nonzero entry price (as all replay- or
BUY-created positions do), if some prediction is an eligible model-driven
SELL for it (signal SELL, confidence at or above `min_confidence`) and
the symbol simultaneously qualifies for a risk-driven take-profit exit
(its live quote puts unrealized P&L at or above `take_profit_pct`), then
the session records exactly one SELL trade for that symbol, generated in
phase 1; the risk sweep and the entry phase record none. -/
theorem c7_phase_ordering (st : TraderState) (preds : List Prediction)
    (quotes : String → Option ℚ) (s : String) (pos : Position) (cp : ℚ)
    (hopen : dictLookup st.portfolioMap s = some pos)
    (hentries : ∀ kv ∈ st.portfolioMap, kv.2.entry_price ≠ 0)
    (hpred : ∃ p ∈ preds, p.symbol = s ∧ p.signal = "SELL"
      ∧ min_confidence ≤ p.confidence)
    (hq : quotes s = some cp)
    (htp : take_profit_pct ≤ (cp - pos.entry_price) / pos.entry_price) :
    ∃ out, runSessionCore st preds quotes = some out ∧
      sellCountFor s out.2.1.1 = 1 ∧
      sellCountFor s out.2.1.2.1 = 0 ∧
      sellCountFor s out.2.1.2.2 = 0 := by
  have hz : pos.entry_price ≠ 0 :=
    hentries (s, pos) (dictLookup_eq_some_mem _ _ _ hopen)
  obtain ⟨hclosed, hcount1⟩ := phase1_eligible s preds st pos hopen hz hpred
  have hentries1 : ∀ kv ∈ (phase1 st preds).1.portfolioMap, kv.2.entry_price ≠ 0 :=
    fun kv hkv => hentries kv (phase1_sub preds st kv hkv)
  obtain ⟨xs, hxs⟩ := scanExits_isSome (phase1 st preds).1.portfolioMap quotes hentries1
  have hcheck : check_exit_conditions (phase1 st preds).1 quotes =
      some (closeAll (phase1 st preds).1 xs) := by
    rw [check_exit_conditions, hxs]
    rfl
  have hrun : runSessionCore st preds quotes =
      some ((phase2 (closeAll (phase1 st preds).1 xs).1 preds).1,
        ((phase1 st preds).2.1, (closeAll (phase1 st preds).1 xs).2,
          (phase2 (closeAll (phase1 st preds).1 xs).1 preds).2.1),
        (phase1 st preds).2.2 + (phase2 (closeAll (phase1 st preds).1 xs).1 preds).2.2) := by
    rw [runSessionCore, hcheck]
  refine ⟨_, hrun, hcount1, ?_, ?_⟩
  · -- no SELL for s in the risk sweep: s is closed before it runs
    obtain ⟨-, htr, -⟩ := closeAll_spec xs (phase1 st preds).1
    refine sellCountFor_eq_zero s _ (fun t ht hx => ?_)
    obtain ⟨-, hmem⟩ := htr t ht
    rw [hx.1] at hmem
    obtain ⟨x, hxmem, hx1⟩ := List.mem_map.mp hmem
    obtain ⟨-, pos', hpos'⟩ := scanExits_sound _ quotes xs hxs x hxmem
    rw [hx1] at hpos'
    exact dictLookup_none_not_mem _ _ hclosed pos' hpos'
  · -- phase 2 records only BUY trades
    refine sellCountFor_eq_zero s _ (fun t ht hx => ?_)
    have := phase2_trades_buy preds _ t ht
    rw [this] at hx
    exact absurd hx.2 (by decide)

/-- Witness for `c7_phase_ordering`: one held ETH lot (entry $10), one
eligible SELL prediction at $11 (confidence 0.7), quote $11 putting the
lot exactly at the take-profit bound — the session records exactly one
SELL for ETH, in phase 1. -/
theorem c7_phase_ordering_witness :
    ∃ out, runSessionCore ethOpenState [ethSellPred] (fun _ => some 11) = some out ∧
      sellCountFor "ETH" out.2.1.1 = 1 ∧
      sellCountFor "ETH" out.2.1.2.1 = 0 ∧
      sellCountFor "ETH" out.2.1.2.2 = 0 :=
  c7_phase_ordering ethOpenState [ethSellPred] (fun _ => some 11) "ETH"
    ⟨1, 10, "", "t0", "crypto"⟩ 11
    (by decide)
    (by decide)
    ⟨ethSellPred, by simp, rfl, rfl, by norm_num [min_confidence, ethSellPred]⟩
    rfl
    (by norm_num [take_profit_pct])

/-- Claim C10: the risk monitor skips unquoted positions.  If an open
position's symbol is absent from the live-price snapshot,
`check_exit_conditions` completes without error, leaves that position
exactly as it was, fires no exit trade for that symbol, and the wallet
change is exactly the summed value of trades for *other* (quoted)
symbols — an unquoted symbol contributes nothing. -/
theorem c10_risk_monitor_skips_unquoted (st : TraderState) (quotes : String → Option ℚ) (s : String)
    (pos : Position)
    (hopen : dictLookup st.portfolioMap s = some pos)
    (hq : quotes s = none)
    (hentries : ∀ kv ∈ st.portfolioMap, kv.2.entry_price ≠ 0) :
    ∃ st' tr, check_exit_conditions st quotes = some (st', tr) ∧
      dictLookup st'.portfolioMap s = some pos ∧
      (∀ t ∈ tr, t.symbol ≠ s) ∧
      st'.wallet_balance = st.wallet_balance + valueSum tr := by
  obtain ⟨xs, hxs⟩ := scanExits_isSome st.portfolioMap quotes hentries
  have hcheck : check_exit_conditions st quotes = some (closeAll st xs) := by
    rw [check_exit_conditions, hxs]
    rfl
  obtain ⟨hw, htr, hlk⟩ := closeAll_spec xs st
  have hsnot : s ∉ xs.map (fun x => x.1) := by
    intro hmem
    obtain ⟨x, hx, hx1⟩ := List.mem_map.mp hmem
    obtain ⟨hquote, -⟩ := scanExits_sound st.portfolioMap quotes xs hxs x hx
    rw [hx1, hq] at hquote
    cases hquote
  refine ⟨(closeAll st xs).1, (closeAll st xs).2, by rw [hcheck], ?_, ?_, hw⟩
  · rw [hlk s hsnot]
    exact hopen
  · intro t ht he
    obtain ⟨-, hmem⟩ := htr t ht
    rw [he] at hmem
    exact hsnot hmem

/-- Witness for `c10_risk_monitor_skips_unquoted`: one open SOL lot and
an empty price snapshot — the sweep closes nothing and the wallet is
unchanged. -/
theorem c10_risk_monitor_skips_unquoted_witness :
    ∃ st' tr, check_exit_conditions ⟨50, [("SOL", ⟨1, 10, "", "t0", "crypto"⟩)]⟩
        (fun _ => none) = some (st', tr) ∧
      dictLookup st'.portfolioMap "SOL" = some ⟨1, 10, "", "t0", "crypto"⟩ ∧
      (∀ t ∈ tr, t.symbol ≠ "SOL") ∧
      st'.wallet_balance = 50 + valueSum tr :=
  c10_risk_monitor_skips_unquoted ⟨50, [("SOL", ⟨1, 10, "", "t0", "crypto"⟩)]⟩ (fun _ => none) "SOL"
    ⟨1, 10, "", "t0", "crypto"⟩ (by decide) rfl (by decide)

/-- Claim C9: in-session wallet non-negativity.  If the wallet is
non-negative when the trading loop starts, every starting lot has a
non-negative quantity, every prediction carries a confidence in [0, 1]
and a non-negative price, and every live quote is non-negative, then the
final wallet is non-negative and every trade record written during the
session (phase-1 exits, risk closes, phase-2 entries) carries a
non-negative `walletBalanceAfter` snapshot — each BUY debits
`walletBalance × maxPositionSize × confidence ≤ walletBalance`, and
closes only credit. -/
theorem c9_wallet_nonnegativity (st : TraderState) (preds : List Prediction)
    (quotes : String → Option ℚ)
    (out : TraderState × (List Trade × List Trade × List Trade) × Nat)
    (h0 : 0 ≤ st.wallet_balance)
    (h1 : ∀ kv ∈ st.portfolioMap, 0 ≤ kv.2.quantity)
    (hpr : ∀ p ∈ preds, 0 ≤ p.confidence ∧ p.confidence ≤ 1 ∧ 0 ≤ p.current_price)
    (hquote : ∀ x q, quotes x = some q → 0 ≤ q)
    (hrun : runSessionCore st preds quotes = some out) :
    0 ≤ out.1.wallet_balance ∧
    (∀ t ∈ out.2.1.1 ++ out.2.1.2.1 ++ out.2.1.2.2, 0 ≤ t.walletBalanceAfter) := by
  rcases hcheck : check_exit_conditions (phase1 st preds).1 quotes with - | r2
  · rw [runSessionCore, hcheck] at hrun
    cases hrun
  · rw [runSessionCore, hcheck] at hrun
    cases Option.some.inj hrun
    obtain ⟨xs, hxs, hr2⟩ := Option.map_eq_some'.mp hcheck
    obtain ⟨p0, p1, p2⟩ := phase1_inv preds st hpr h0 h1
    have hprices : ∀ x ∈ xs, 0 ≤ x.2.1 := by
      intro x hxmem
      obtain ⟨hqx, -⟩ := scanExits_sound _ quotes xs hxs x hxmem
      exact hquote x.1 x.2.1 hqx
    obtain ⟨c0, c1, c2⟩ := closeAll_inv xs (phase1 st preds).1 hprices p0 p1
    rw [hr2] at c0 c1 c2
    obtain ⟨q0, q1, q2⟩ := phase2_inv preds r2.1 hpr c0 c1
    refine ⟨q0, ?_⟩
    intro t ht
    rcases List.mem_append.mp ht with ht' | ht3
    · rcases List.mem_append.mp ht' with ht1 | ht2
      · exact p2 t ht1
      · exact c2 t ht2
    · exact q2 t ht3

/-- Witness for `c9_wallet_nonnegativity`: the spec's BTC entry scenario
run as a full session ($50 wallet, one BUY, empty quote snapshot) ends at
$42 with the single trade's snapshot non-negative. -/
theorem c9_wallet_nonnegativity_witness :
    0 ≤ (42 : ℚ) ∧
    (∀ t ∈ ([] : List Trade) ++ ([] : List Trade) ++
        [(⟨"BTC", "crypto", "BUY", 1/5625, 45000, 8, 50, 42,
          none, none, none, none, none⟩ : Trade)], 0 ≤ t.walletBalanceAfter) := by
  have h := c9_wallet_nonnegativity ⟨50, []⟩ [predBTCBuy] (fun _ => none)
    ((⟨42, [("BTC", ⟨1/5625, 45000, "", "", "crypto"⟩)]⟩ : TraderState),
      (([] : List Trade), ([] : List Trade),
        [(⟨"BTC", "crypto", "BUY", 1/5625, 45000, 8, 50, 42,
          none, none, none, none, none⟩ : Trade)]), 1)
    (by norm_num)
    (by
      intro kv hkv
      cases hkv)
    (by
      intro p hp
      simp only [List.mem_singleton] at hp
      subst hp
      norm_num [predBTCBuy])
    (by
      intro x q h
      cases h)
    (by
      norm_num +decide [runSessionCore, phase1, phase2, check_exit_conditions,
        scanExits, closeAll, should_trade, execute_trade, min_confidence,
        max_position_size, dictLookup, dictInsert, predBTCBuy])
  exact h

end PaperTrader
